import Mathlib

/-!
Shallow embedding of `src/electionguard/encryption_compositor.py` (the ballot
encryption pipeline of an ElectionGuard-style voting system), together with
models of the external collaborators it calls (group arithmetic, hashing,
nonce sequences, ElGamal encryption, Chaum-Pedersen proofs, and the
ballot/election data classes), which are not part of the source tree and are
therefore modelled from the specification.

Python strings are modelled as a value together with an object identity
(`addr`), because the source compares object ids with Python `is`
(reference identity) rather than `==` (value equality).
-/

namespace EG

/-- A Python string object: an object identity (`addr`) plus the string value.
Two distinct string objects may hold equal values; Python `is` compares the
identity, `==` compares the value. -/
structure PyStr where
  addr : Nat
  val : String
deriving DecidableEq

/-- Python `is` on two string objects: reference identity. -/
def pyIs (a b : PyStr) : Bool :=
  a.addr == b.addr

/-- Canonical numeric encoding of one string, order- and type-preserving. -/
def strEnc (s : String) : Nat :=
  s.data.foldl (fun a c => a * 1114112 + c.toNat + 1) 0

/-- A freshly constructed Python string object (e.g. the result of an
f-string); its identity is derived deterministically from its value, which is
adequate because the source never compares constructed strings with `is`. -/
def pyNew (s : String) : PyStr :=
  ⟨7919 + strEnc s, s⟩

/-- The little-endian decimal digits of `n`, with explicit fuel so that the
recursion is structural (any `fuel ≥ n` yields the digits of `n`). -/
def digitsRev (fuel n : Nat) : List Nat :=
  match fuel with
  | 0 => []
  | fuel + 1 => if n = 0 then [] else n % 10 :: digitsRev fuel (n / 10)

/-- The decimal digit characters. -/
def digitChar (d : Nat) : Char :=
  match d with
  | 0 => '0'
  | 1 => '1'
  | 2 => '2'
  | 3 => '3'
  | 4 => '4'
  | 5 => '5'
  | 6 => '6'
  | 7 => '7'
  | 8 => '8'
  | 9 => '9'
  | _ => '*'

/-- Python `str(int)` on a non-negative integer: its decimal
representation. -/
def natToString (n : Nat) : String :=
  if n = 0 then "0" else ⟨((digitsRev n n).map digitChar).reverse⟩

/-- Python `str(bool)`: `"True"` or `"False"`. -/
def pyStrOfBool (b : Bool) : String :=
  if b then "True" else "False"

/-- Lower-casing of a string, as Python `str.lower()` on ASCII input. -/
def lowerStr (s : String) : String :=
  ⟨s.data.map Char.toLower⟩

/-- Modelled from the spec: the order `Q` of the exponent group ("Q is a large
prime"); a small prime stands in for the production constant, which lives in
the external `group` module. -/
def Q : Nat := 23

/-- Modelled from the spec: the modulus `P` ("P is a large safe-prime-like
modulus such that the subgroup of order Q embeds in Z*_p"); `P = 2*Q + 1`. -/
def P : Nat := 47

/-- Modelled from the spec: the fixed generator of the order-`Q` subgroup used
by `g_pow_p`; `2` is a quadratic residue mod `47` of order `23`. -/
def G : Nat := 2

/-- Modelled from the spec: a heterogeneous hash input: a group
element/integer or a string. -/
inductive HashInput where
  | nat (n : Nat)
  | str (s : String)
deriving DecidableEq

/-- Type-disambiguating encoding of a hash input. -/
def encodeHashInput : HashInput → Nat
  | .nat n => 2 * n
  | .str s => 2 * strEnc s + 1

/-- Modelled from the spec: `hash_elems(*inputs)` from the external `hash`
module: a deterministic, order-sensitive digest of a heterogeneous input
sequence, reduced into an `ElementModQ`.  A concrete fold stands in for the
cryptographic hash; only determinism and the data flow matter for the
properties proved here. -/
def hash_elems (xs : List HashInput) : Nat :=
  xs.foldl (fun acc x => (acc * 31 + encodeHashInput x + 1) % Q) 1

/-- Modelled from the spec: the external `Nonces` sequence: given a `head` and
a `seed`, an indexable deterministic sequence of exponents,
`nonce[i] = hash_elems(head, seed, i)`. -/
structure Nonces where
  head : Nat
  seed : Nat
deriving DecidableEq

/-- Index into a nonce sequence; `get 0` is also the value produced by
`next(iter(nonce_sequence))` in the source. -/
def Nonces.get (ns : Nonces) (i : Nat) : Nat :=
  hash_elems [.nat ns.head, .nat ns.seed, .nat i]

/-- An exponential-ElGamal ciphertext: a pair of group elements. -/
structure ElGamalCiphertext where
  pad : Nat
  data : Nat
deriving DecidableEq

/-- Modelled from the spec: `elgamal_encrypt(message, nonce, public_key)`:
`pad = g^nonce mod p`, `data = g^message * K^nonce mod p`; fails (returns
`none`) if the nonce is the zero element. -/
def elgamal_encrypt (m nonce K : Nat) : Option ElGamalCiphertext :=
  if nonce % Q == 0 then none
  else some ⟨G ^ nonce % P, (G ^ m * K ^ nonce) % P⟩

/-- Pointwise multiplication of ciphertexts: the homomorphic addition of the
underlying plaintexts. -/
def elgamal_add (a b : ElGamalCiphertext) : ElGamalCiphertext :=
  ⟨a.pad * b.pad % P, a.data * b.data % P⟩

/-- Modular inverse in `Z*_p` via Fermat (`P` is prime). -/
def invModP (x : Nat) : Nat :=
  x ^ (P - 2) % P

/-- Modelled from the spec: a disjunctive Chaum-Pedersen proof: two commitment
pairs (one per branch), two responses, two branch challenges, and the combined
challenge. -/
structure DisjunctiveChaumPedersenProof where
  a0 : Nat
  b0 : Nat
  a1 : Nat
  b1 : Nat
  c0 : Nat
  c1 : Nat
  c : Nat
  v0 : Nat
  v1 : Nat
deriving DecidableEq

/-- Modelled from the spec: a constant Chaum-Pedersen proof: one commitment
pair, the Fiat-Shamir challenge, the response, and the stated constant. -/
structure ConstantChaumPedersenProof where
  a : Nat
  b : Nat
  c : Nat
  v : Nat
  constant : Nat
deriving DecidableEq

/-- Modelled from the spec: construction of the disjunctive proof that a
ciphertext encrypts 0 or 1: a genuine Sigma transcript for the true branch, a
simulated transcript (response chosen first) for the other branch, with the
combined Fiat-Shamir challenge equal to the sum of the branch challenges
mod `Q`; fails (returns `none`) when the plaintext is outside `{0, 1}`. -/
def make_disjunctive_chaum_pedersen
    (message : ElGamalCiphertext) (r K proof_seed m : Nat) :
    Option DisjunctiveChaumPedersenProof :=
  let u := hash_elems [.nat proof_seed, .str "u"]
  let csim := hash_elems [.nat proof_seed, .str "c"]
  let vsim := hash_elems [.nat proof_seed, .str "v"]
  if m == 0 then
    let a0 := G ^ u % P
    let b0 := K ^ u % P
    let c1 := csim
    let v1 := vsim
    let a1 := G ^ v1 * invModP (message.pad ^ c1 % P) % P
    let b1 := K ^ v1 % P * (G ^ c1 % P) % P * invModP (message.data ^ c1 % P) % P
    let c := hash_elems [.nat message.pad, .nat message.data, .nat a0, .nat b0, .nat a1, .nat b1]
    let c0 := (c + (Q - c1)) % Q
    let v0 := (u + c0 * r) % Q
    some ⟨a0, b0, a1, b1, c0, c1, c, v0, v1⟩
  else if m == 1 then
    let c0 := csim
    let v0 := vsim
    let a0 := G ^ v0 * invModP (message.pad ^ c0 % P) % P
    let b0 := K ^ v0 * invModP (message.data ^ c0 % P) % P
    let a1 := G ^ u % P
    let b1 := K ^ u % P
    let c := hash_elems [.nat message.pad, .nat message.data, .nat a0, .nat b0, .nat a1, .nat b1]
    let c1 := (c + (Q - c0)) % Q
    let v1 := (u + c1 * r) % Q
    some ⟨a0, b0, a1, b1, c0, c1, c, v0, v1⟩
  else none

/-- Modelled from the spec: verification of a disjunctive proof: recompute the
combined challenge, check it equals the sum of the branch challenges mod `Q`,
and check both branch Sigma equations (the `1` branch with the generator
offset on the data side). -/
def DisjunctiveChaumPedersenProof.is_valid
    (p : DisjunctiveChaumPedersenProof) (message : ElGamalCiphertext) (K : Nat) : Bool :=
  let c' := hash_elems [.nat message.pad, .nat message.data, .nat p.a0, .nat p.b0, .nat p.a1, .nat p.b1]
  p.c == c'
  && (p.c0 + p.c1) % Q == p.c % Q
  && G ^ p.v0 % P == p.a0 * message.pad ^ p.c0 % P
  && K ^ p.v0 % P == p.b0 * message.data ^ p.c0 % P
  && G ^ p.v1 % P == p.a1 * message.pad ^ p.c1 % P
  && G ^ p.c1 * K ^ p.v1 % P == p.b1 * message.data ^ p.c1 % P

/-- Modelled from the spec: construction of the constant proof: a single Sigma
protocol proving the accumulated ciphertext encrypts the stated constant,
with challenge `hash(public key, commitment, accumulated ciphertext)`; fails
when the constant is outside its valid range. -/
def make_constant_chaum_pedersen
    (message : ElGamalCiphertext) (constant nonce K proof_seed : Nat) :
    Option ConstantChaumPedersenProof :=
  if constant < Q then
    let u := hash_elems [.nat proof_seed, .str "k"]
    let a := G ^ u % P
    let b := K ^ u % P
    let c := hash_elems [.nat K, .nat a, .nat b, .nat message.pad, .nat message.data]
    let v := (u + c * nonce) % Q
    some ⟨a, b, c, v, constant⟩
  else none

/-- Modelled from the spec: verification of a constant proof: recompute the
challenge and check the pad-side and (constant-offset) data-side Sigma
equations. -/
def ConstantChaumPedersenProof.is_valid
    (p : ConstantChaumPedersenProof) (message : ElGamalCiphertext) (constant K : Nat) : Bool :=
  let c' := hash_elems [.nat K, .nat p.a, .nat p.b, .nat message.pad, .nat message.data]
  p.c == c'
  && p.constant == constant
  && G ^ p.v % P == p.a * message.pad ^ p.c % P
  && G ^ (p.c * constant) * K ^ p.v % P == p.b * message.data ^ p.c % P

/-- Modelled from the spec: `SelectionDescription{object_id, sequence_order,
crypto_hash()}` from the external `election` module; the constructor in the
source also takes a candidate id. -/
structure SelectionDescription where
  object_id : PyStr
  candidate_id : PyStr
  sequence_order : Nat
deriving DecidableEq

/-- Modelled from the spec: the deterministic digest of a selection
description's identifying fields. -/
def SelectionDescription.crypto_hash (d : SelectionDescription) : Nat :=
  hash_elems [.str d.object_id.val, .str d.candidate_id.val, .nat d.sequence_order]

/-- Modelled from the spec: `ContestDescription{object_id, sequence_order,
ballot_selections, number_elected, votes_allowed, crypto_hash()}`. -/
structure ContestDescription where
  object_id : PyStr
  sequence_order : Nat
  ballot_selections : List SelectionDescription
  number_elected : Nat
  votes_allowed : Nat
deriving DecidableEq

/-- Modelled from the spec: the deterministic digest of a contest
description's identifying fields, binding its selection descriptions. -/
def ContestDescription.crypto_hash (cd : ContestDescription) : Nat :=
  hash_elems
    ([.str cd.object_id.val, .nat cd.sequence_order]
      ++ cd.ballot_selections.map (fun d => .nat d.crypto_hash)
      ++ [.nat cd.number_elected, .nat cd.votes_allowed])

/-- Modelled from the spec: `PlaintextBallotSelection{object_id, vote,
is_placeholder}`; the vote field receives `str(bool)` values from the source,
so it is a string whose boolean-as-integer interpretation is `to_int`. -/
structure PlaintextBallotSelection where
  object_id : PyStr
  plaintext : String
  is_placeholder : Bool
deriving DecidableEq

/-- Modelled from the spec: parsing of a vote field to a boolean
(case-insensitive, as Python `strtobool(s.lower())`); `none` on an invalid
plaintext value. -/
def parseBool (s : String) : Option Bool :=
  if lowerStr s == "true" then some true
  else if lowerStr s == "false" then some false
  else none

/-- Modelled from the spec: the boolean-as-integer (0/1) representation of a
plaintext selection, as used both for encryption and for the running
`selection_count`. -/
def PlaintextBallotSelection.to_int (s : PlaintextBallotSelection) : Nat :=
  match parseBool s.plaintext with
  | some true => 1
  | _ => 0

/-- Modelled from the spec: selection-level validation: the object id must
match the description's (by value) and the vote must be a valid plaintext
value; malformed input is reported by the caller returning an absence
value. -/
def PlaintextBallotSelection.is_valid
    (s : PlaintextBallotSelection) (expected_object_id : PyStr) : Bool :=
  s.object_id.val == expected_object_id.val && (parseBool s.plaintext).isSome

/-- Modelled from the spec: `PlaintextBallotContest{object_id, selections}`. -/
structure PlaintextBallotContest where
  object_id : PyStr
  ballot_selections : List PlaintextBallotSelection
deriving DecidableEq

/-- The number of true votes in a plaintext contest. -/
def PlaintextBallotContest.totalVotes (c : PlaintextBallotContest) : Nat :=
  (c.ballot_selections.map (fun s => s.to_int)).sum

/-- Modelled from the spec: contest-level validation against the description:
object-id match (by value), selection count within the expected number, and
count of true selections within `votes_allowed`. -/
def PlaintextBallotContest.is_valid
    (c : PlaintextBallotContest) (expected_object_id : PyStr)
    (expected_num_selections expected_num_elected expected_votes_allowed : Nat) : Bool :=
  c.object_id.val == expected_object_id.val
  && c.ballot_selections.length ≤ expected_num_selections
  && expected_num_elected ≤ expected_num_selections
  && c.totalVotes ≤ expected_votes_allowed

/-- Modelled from the spec: `PlaintextBallot{object_id, ballot_style,
contests}`. -/
structure PlaintextBallot where
  object_id : PyStr
  ballot_style : PyStr
  contests : List PlaintextBallotContest
deriving DecidableEq

/-- Modelled from the spec: ballot-level validation against the resolved
ballot style. -/
def PlaintextBallot.is_valid (b : PlaintextBallot) (expected_style_id : PyStr) : Bool :=
  b.ballot_style.val == expected_style_id.val

/-- `CyphertextBallotSelection`: the encrypted selection, its binding
description hash, the (transient) nonce, and its disjunctive proof.  The
message and proof are optional because the source stores the raw results of
the fallible encryption and proof constructions. -/
structure CyphertextBallotSelection where
  object_id : PyStr
  description_hash : Nat
  message : Option ElGamalCiphertext
  is_placeholder : Bool
  nonce : Nat
  proof : Option DisjunctiveChaumPedersenProof
deriving DecidableEq

/-- Modelled from the spec: selection self-verification: the proof must be
bound to the expected description hash and must verify against the ciphertext
and the public key. -/
def CyphertextBallotSelection.is_valid_encryption
    (s : CyphertextBallotSelection) (expected_hash K : Nat) : Bool :=
  s.description_hash == expected_hash
  && match s.message, s.proof with
     | some msg, some pf => pf.is_valid msg K
     | _, _ => false

/-- `CyphertextBallotContest`: the encrypted contest.  Its selection list may
contain absent entries because the source appends results of the fallible
`encrypt_selection` without checking them. -/
structure CyphertextBallotContest where
  object_id : PyStr
  description_hash : Nat
  ballot_selections : List (Option CyphertextBallotSelection)
  nonce : Nat
  proof : Option ConstantChaumPedersenProof
deriving DecidableEq

/-- Modelled from the spec: the homomorphic accumulation (pointwise product)
of all selection ciphertexts of a contest; absent if any child or any child's
message is absent. -/
def CyphertextBallotContest.elgamal_accumulate
    (c : CyphertextBallotContest) : Option ElGamalCiphertext :=
  (c.ballot_selections.mapM
      (fun (o : Option CyphertextBallotSelection) => o.bind (fun s => s.message))).map
    (fun msgs => msgs.foldl elgamal_add ⟨1, 1⟩)

/-- Modelled from the spec: the aggregate nonce (sum mod `Q`) of all selection
nonces of a contest; absent if any child is absent. -/
def CyphertextBallotContest.aggregate_nonce (c : CyphertextBallotContest) : Option Nat :=
  (c.ballot_selections.mapM id).map
    (fun sels => sels.foldl (fun acc s => (acc + s.nonce) % Q) 0)

/-- Modelled from the spec: the number of elected seats the contest's constant
proof was built against, recovered from the stored proof. -/
def CyphertextBallotContest.proofConstant (c : CyphertextBallotContest) : Nat :=
  match c.proof with
  | some pf => pf.constant
  | none => 0

/-- Modelled from the spec: contest self-verification: the description hash
must match, every child selection must be present and verify against its own
description hash, and the constant proof must verify against the accumulated
ciphertext. -/
def CyphertextBallotContest.is_valid_encryption
    (c : CyphertextBallotContest) (expected_hash K : Nat) : Bool :=
  c.description_hash == expected_hash
  && c.ballot_selections.all
       (fun o => match o with
         | some s => s.is_valid_encryption s.description_hash K
         | none => false)
  && match c.elgamal_accumulate, c.proof with
     | some acc, some pf => pf.is_valid acc pf.constant K
     | _, _ => false

/-- `CyphertextBallot`: the encrypted ballot; its contest list may contain
absent entries because the source appends results of the fallible
`encrypt_contest` without checking them. -/
structure CyphertextBallot where
  object_id : PyStr
  ballot_style : PyStr
  crypto_extended_base_hash : Nat
  contests : List (Option CyphertextBallotContest)
  nonce : Nat
  tracking_id : String
deriving DecidableEq

/-- Modelled from the spec: ballot self-verification: the extended base hash
must match and every contest must be present and verify recursively. -/
def CyphertextBallot.is_valid_encryption
    (b : CyphertextBallot) (expected_base_hash K : Nat) : Bool :=
  b.crypto_extended_base_hash == expected_base_hash
  && b.contests.all
       (fun o => match o with
         | some c => c.is_valid_encryption c.description_hash K
         | none => false)

/-- Modelled from the spec: a ballot style, exposing its object id. -/
structure BallotStyle where
  object_id : PyStr
deriving DecidableEq

/-- Modelled from the spec: the election metadata interface: resolution of a
ballot-style id to the style and to its ordered contest descriptions. -/
structure Election where
  styles : List (PyStr × List ContestDescription)
deriving DecidableEq

/-- Style lookup by ballot-style id (value equality on the id). -/
def Election.lookup_style (e : Election) (style_id : PyStr) :
    PyStr × List ContestDescription :=
  ((e.styles.find? (fun p => p.1.val == style_id.val)).getD (style_id, []))

/-- Modelled from the spec: `get_ballot_style(style_id)`. -/
def Election.get_ballot_style (e : Election) (style_id : PyStr) : BallotStyle :=
  ⟨(e.lookup_style style_id).1⟩

/-- Modelled from the spec: `get_contests_for(style_id)`: the ordered contest
descriptions of the style. -/
def Election.get_contests_for (e : Election) (style_id : PyStr) :
    List ContestDescription :=
  (e.lookup_style style_id).2

/-- Modelled from the spec: the encryption context: the election public key
and the extended base hash. -/
structure CyphertextElection where
  elgamal_public_key : Nat
  crypto_extended_base_hash : Nat
deriving DecidableEq

/-- `selection_from(description, is_placeholder, is_affirmative)`: constructs
a plaintext selection for the description, with vote `str(is_affirmative)`.
The source's defaults are `is_placeholder = False`, `is_affirmative = False`;
call sites here always pass both explicitly. -/
def selection_from (description : SelectionDescription)
    (is_placeholder is_affirmative : Bool) : PlaintextBallotSelection :=
  ⟨description.object_id, pyStrOfBool is_affirmative, is_placeholder⟩

/-- `placeholder_selection_description_from(description, sequence_order)`:
a fresh selection description with object id and candidate id both the
f-string `"{description.object_id}-{sequence_order}"`. -/
def placeholder_selection_description_from (description : ContestDescription)
    (sequence_order : Nat) : SelectionDescription :=
  let placeholder := pyNew (description.object_id.val ++ "-" ++ natToString sequence_order)
  ⟨placeholder, placeholder, sequence_order⟩

/-- `contest_from(description)`: an all-false plaintext contest for the
description, used when the voter omitted the contest entirely. -/
def contest_from (description : ContestDescription) : PlaintextBallotContest :=
  ⟨description.object_id,
    description.ballot_selections.map (fun d => selection_from d false false)⟩

/-- `encrypt_selection(selection, selection_description, elgamal_public_key,
seed, is_placeholder, should_verify_proofs)`: validate the selection, derive
the selection nonce from `Nonces(description.crypto_hash(), seed)` at index
`description.sequence_order`, encrypt the 0/1 representation, build the
disjunctive proof with proof randomness `next(iter(nonce_sequence))`
(index 0), and optionally self-verify.  The source's defaults are
`is_placeholder = False`, `should_verify_proofs = True`; call sites here
always pass both explicitly. -/
def encrypt_selection (selection : PlaintextBallotSelection)
    (selection_description : SelectionDescription)
    (elgamal_public_key seed : Nat)
    (is_placeholder should_verify_proofs : Bool) :
    Option CyphertextBallotSelection :=
  if selection.is_valid selection_description.object_id then
    let nonce_sequence : Nonces := ⟨selection_description.crypto_hash, seed⟩
    let selection_nonce := nonce_sequence.get selection_description.sequence_order
    let selection_representation := selection.to_int
    let elgamal_encryption :=
      elgamal_encrypt selection_representation selection_nonce elgamal_public_key
    let encrypted_selection : CyphertextBallotSelection :=
      { object_id := selection.object_id
        description_hash := selection_description.crypto_hash
        message := elgamal_encryption
        is_placeholder := is_placeholder
        nonce := selection_nonce
        proof := elgamal_encryption.bind (fun elgamal_cyphertext =>
          make_disjunctive_chaum_pedersen elgamal_cyphertext selection_nonce
            elgamal_public_key (nonce_sequence.get 0) selection_representation) }
    if should_verify_proofs then
      if encrypted_selection.is_valid_encryption
          selection_description.crypto_hash elgamal_public_key then
        some encrypted_selection
      else none
    else some encrypted_selection
  else none

/-- The state threaded through the inner `for selection in
contest.ballot_selections` loop of `encrypt_contest`: the `has_selection`
flag, the (re-assigned) `encrypted_selection` variable, and the running
`selection_count`. -/
structure InnerState where
  has_selection : Bool
  encrypted_selection : Option CyphertextBallotSelection
  selection_count : Nat
deriving DecidableEq

/-- One iteration of the inner matching loop of `encrypt_contest`: on an
object-id match (Python `is`, i.e. reference identity) set `has_selection`,
accumulate the selection's plaintext value, and overwrite
`encrypted_selection` with this selection's encryption. -/
def innerStep (elgamal_public_key contest_nonce : Nat)
    (description : SelectionDescription)
    (st : InnerState) (selection : PlaintextBallotSelection) : InnerState :=
  if pyIs selection.object_id description.object_id then
    { has_selection := true
      selection_count := st.selection_count + selection.to_int
      encrypted_selection :=
        encrypt_selection selection description elgamal_public_key contest_nonce
          false true }
  else st

/-- The whole inner matching loop of `encrypt_contest`, starting from the
current running `selection_count`; `has_selection` starts out `False` and the
`encrypted_selection` variable is observably unassigned at loop entry. -/
def innerLoop (elgamal_public_key contest_nonce : Nat)
    (description : SelectionDescription)
    (contest_selections : List PlaintextBallotSelection)
    (selection_count : Nat) : InnerState :=
  contest_selections.foldl (innerStep elgamal_public_key contest_nonce description)
    ⟨false, none, selection_count⟩

/-- The state threaded through the outer `for description in
contest_description.ballot_selections` loop of `encrypt_contest`. -/
structure ContestLoopState where
  encrypted_selections : List (Option CyphertextBallotSelection)
  selection_count : Nat
  highest_sequence_order : Nat
deriving DecidableEq

/-- One iteration of the outer loop of `encrypt_contest`: track the highest
sequence order, run the inner matching loop, fall back to an explicit false
selection when the voter supplied none, and append the resulting (possibly
absent) encryption. -/
def outerStep (elgamal_public_key contest_nonce : Nat)
    (contest_selections : List PlaintextBallotSelection)
    (st : ContestLoopState) (description : SelectionDescription) : ContestLoopState :=
  let highest_sequence_order :=
    if description.sequence_order > st.highest_sequence_order then
      description.sequence_order
    else st.highest_sequence_order
  let inner := innerLoop elgamal_public_key contest_nonce description
    contest_selections st.selection_count
  let encrypted_selection :=
    if inner.has_selection then inner.encrypted_selection
    else
      encrypt_selection (selection_from description false false) description
        elgamal_public_key contest_nonce false true
  { encrypted_selections := st.encrypted_selections ++ [encrypted_selection]
    selection_count := inner.selection_count
    highest_sequence_order := highest_sequence_order }

/-- The state threaded through the placeholder loop of `encrypt_contest`. -/
structure PlaceholderState where
  encrypted_selections : List (Option CyphertextBallotSelection)
  selection_count : Nat
deriving DecidableEq

/-- One iteration of the placeholder loop of `encrypt_contest` (`i` ranges
over `range(number_elected)`): the placeholder is affirmative while the
running `selection_count` is still below `number_elected`, and its
description has sequence order `highest_sequence_order + i`. -/
def placeholderStep (contest_description : ContestDescription)
    (elgamal_public_key contest_nonce highest_sequence_order : Nat)
    (st : PlaceholderState) (i : Nat) : PlaceholderState :=
  let select_placeholder := st.selection_count < contest_description.number_elected
  let selection_count :=
    if select_placeholder then st.selection_count + 1 else st.selection_count
  let placeholder_description :=
    placeholder_selection_description_from contest_description
      (highest_sequence_order + i)
  { encrypted_selections := st.encrypted_selections ++
      [encrypt_selection (selection_from placeholder_description true select_placeholder)
        placeholder_description elgamal_public_key contest_nonce false true]
    selection_count := selection_count }

/-- The full selection list built by `encrypt_contest`: the outer matching
loop over the contest's selection descriptions followed by the placeholder
loop over `range(number_elected)`. -/
def contestEncryptions (contest_selections : List PlaintextBallotSelection)
    (contest_description : ContestDescription)
    (elgamal_public_key contest_nonce : Nat) :
    List (Option CyphertextBallotSelection) :=
  let st := contest_description.ballot_selections.foldl
    (outerStep elgamal_public_key contest_nonce contest_selections) ⟨[], 0, 0⟩
  ((List.range contest_description.number_elected).foldl
      (placeholderStep contest_description elgamal_public_key contest_nonce
        st.highest_sequence_order)
      ⟨st.encrypted_selections, st.selection_count⟩).encrypted_selections

/-- The contest-level constant proof built by `encrypt_contest` over the
accumulated ciphertext and the aggregate nonce; absent whenever either is. -/
def contestProof (encrypted_selections : List (Option CyphertextBallotSelection))
    (number_elected elgamal_public_key proof_seed : Nat) :
    Option ConstantChaumPedersenProof :=
  let shell : CyphertextBallotContest :=
    ⟨⟨0, ""⟩, 0, encrypted_selections, 0, none⟩
  shell.elgamal_accumulate.bind (fun accumulation =>
    shell.aggregate_nonce.bind (fun aggregate =>
      make_constant_chaum_pedersen accumulation number_elected aggregate
        elgamal_public_key proof_seed))

/-- `encrypt_contest(contest, contest_description, elgamal_public_key, seed,
should_verify_proofs)`: validate the contest, derive the contest nonce from
`Nonces(contest_description.crypto_hash(), seed)` at the contest's sequence
order, run the matching and placeholder loops, attach the constant proof
(with proof randomness `next(iter(nonce_sequence))`), and optionally
self-verify.  The source's default is `should_verify_proofs = True`; call
sites here always pass it explicitly. -/
def encrypt_contest (contest : PlaintextBallotContest)
    (contest_description : ContestDescription)
    (elgamal_public_key seed : Nat) (should_verify_proofs : Bool) :
    Option CyphertextBallotContest :=
  if contest.is_valid contest_description.object_id
      contest_description.ballot_selections.length
      contest_description.number_elected
      contest_description.votes_allowed then
    let nonce_sequence : Nonces := ⟨contest_description.crypto_hash, seed⟩
    let contest_nonce := nonce_sequence.get contest_description.sequence_order
    let encrypted_selections :=
      contestEncryptions contest.ballot_selections contest_description
        elgamal_public_key contest_nonce
    let encrypted_contest : CyphertextBallotContest :=
      { object_id := contest.object_id
        description_hash := contest_description.crypto_hash
        ballot_selections := encrypted_selections
        nonce := contest_nonce
        proof := contestProof encrypted_selections
          contest_description.number_elected elgamal_public_key
          (nonce_sequence.get 0) }
    if should_verify_proofs then
      if encrypted_contest.is_valid_encryption contest_description.crypto_hash
          elgamal_public_key then
        some encrypted_contest
      else none
    else some encrypted_contest
  else none

/-- `encrypt_ballot(ballot, election_metadata, encryption_context,
should_verify_proofs)`: resolve and validate the ballot style, hash the
extended base hash, the ballot id and the process-wide random master nonce
into the per-ballot nonce seed, run the nested contest loop (whose append
sits inside the inner `for contest in ballot.contests` loop in the source),
assemble the ballot with the fixed placeholder tracking id, and optionally
self-verify.  The `randbelow(Q)` draw is passed in as the explicit
`random_master_nonce` argument. -/
def encrypt_ballot (ballot : PlaintextBallot) (election_metadata : Election)
    (encryption_context : CyphertextElection) (random_master_nonce : Nat)
    (should_verify_proofs : Bool) : Option CyphertextBallot :=
  let style := election_metadata.get_ballot_style ballot.ballot_style
  if ballot.is_valid style.object_id then
    let hashed_ballot_nonce := hash_elems
      [.nat encryption_context.crypto_extended_base_hash,
       .str ballot.object_id.val, .nat random_master_nonce]
    let encrypted_contests : List (Option CyphertextBallotContest) :=
      (election_metadata.get_contests_for ballot.ballot_style).foldl
        (fun acc description =>
          ballot.contests.foldl
            (fun acc2 contest =>
              acc2 ++
                [if pyIs contest.object_id description.object_id then
                   encrypt_contest contest description
                     encryption_context.elgamal_public_key hashed_ballot_nonce true
                 else
                   encrypt_contest (contest_from description) description
                     encryption_context.elgamal_public_key hashed_ballot_nonce true])
            acc)
        []
    let encrypted_ballot : CyphertextBallot :=
      { object_id := ballot.object_id
        ballot_style := ballot.ballot_style
        crypto_extended_base_hash := encryption_context.crypto_extended_base_hash
        contests := encrypted_contests
        nonce := random_master_nonce
        tracking_id := "abc123" }
    if should_verify_proofs then
      if encrypted_ballot.is_valid_encryption
          encryption_context.crypto_extended_base_hash
          encryption_context.elgamal_public_key then
        some encrypted_ballot
      else none
    else some encrypted_ballot
  else none

/-! Characterization of the matching loops. -/

/-- Whether a voter selection matches a given selection description, exactly as the
source tests it: Python `is` on the object ids. -/
def matchesDesc (description : SelectionDescription) (s : PlaintextBallotSelection) : Bool :=
  pyIs s.object_id description.object_id

/-- One step of the pure "last matching selection" scan. -/
def lastMatchStep (description : SelectionDescription)
    (acc : Option PlaintextBallotSelection) (s : PlaintextBallotSelection) :
    Option PlaintextBallotSelection :=
  if matchesDesc description s then some s else acc

/-- The last selection of the list matching the description, if any. -/
def lastMatch (contest_selections : List PlaintextBallotSelection)
    (description : SelectionDescription) : Option PlaintextBallotSelection :=
  contest_selections.foldl (lastMatchStep description) none

/-- The sum of the plaintext values of all selections matching the
description: the contribution of one outer-loop iteration to the running
`selection_count`. -/
def matchVotes (contest_selections : List PlaintextBallotSelection)
    (description : SelectionDescription) : Nat :=
  ((contest_selections.filter (matchesDesc description)).map (fun s => s.to_int)).sum

/-- The plaintext selection whose encryption one outer-loop iteration
appends: the last matching voter selection, or the synthesized explicit-false
selection when no voter selection matches. -/
def slotSelection (contest_selections : List PlaintextBallotSelection)
    (description : SelectionDescription) : PlaintextBallotSelection :=
  (lastMatch contest_selections description).getD (selection_from description false false)

/-- The running-maximum computation of the outer loop, from a given start. -/
def highestSeqFrom (h : Nat) (ds : List SelectionDescription) : Nat :=
  ds.foldl
    (fun acc d => if d.sequence_order > acc then d.sequence_order else acc) h

/-- The highest sequence order among the contest's selection descriptions, as
the source computes it (starting from 0). -/
def highestSeq (ds : List SelectionDescription) : Nat :=
  highestSeqFrom 0 ds

/-- The plaintext counterpart of one placeholder-loop iteration, tracking the
pair (plaintext selection, description) that the iteration encrypts. -/
def planPlaceholderStep (cd : ContestDescription) (h : Nat)
    (st : List (PlaintextBallotSelection × SelectionDescription) × Nat)
    (i : Nat) : List (PlaintextBallotSelection × SelectionDescription) × Nat :=
  let select_placeholder := st.2 < cd.number_elected
  let selection_count := if select_placeholder then st.2 + 1 else st.2
  let placeholder_description := placeholder_selection_description_from cd (h + i)
  (st.1 ++ [(selection_from placeholder_description true select_placeholder,
      placeholder_description)],
    selection_count)

/-- The encryption plan of `encrypt_contest`: the ordered list of (plaintext
selection, selection description) pairs whose encryptions make up the
encrypted contest's selection list — the slot selection of every real
selection description, followed by `number_elected` placeholder
selections. -/
def contestPlan (contest_selections : List PlaintextBallotSelection)
    (cd : ContestDescription) :
    List (PlaintextBallotSelection × SelectionDescription) :=
  let realPart := cd.ballot_selections.map
    (fun d => (slotSelection contest_selections d, d))
  let c0 := (cd.ballot_selections.map (matchVotes contest_selections)).sum
  ((List.range cd.number_elected).foldl
      (planPlaceholderStep cd (highestSeq cd.ballot_selections))
      (realPart, c0)).1

/-- The sum of the plaintext (0/1) representations in an encryption plan. -/
def planTrues (l : List (PlaintextBallotSelection × SelectionDescription)) : Nat :=
  (l.map (fun p => p.1.to_int)).sum

/-- The number of entries of an encryption plan whose plaintext representation
is true. -/
def planTrueCount (l : List (PlaintextBallotSelection × SelectionDescription)) : Nat :=
  l.countP (fun p => p.1.to_int == 1)

/-! Injectivity of the decimal representation, for the uniqueness of the
synthesized placeholder object ids. -/

/-- The value of a little-endian digit list. -/
def undigits : List Nat → Nat
  | [] => 0
  | d :: ds => d + 10 * undigits ds

/-! Concrete elections, contests and ballots used to instantiate and to
refute the claims. -/

def wdA : SelectionDescription := ⟨⟨10, "A"⟩, ⟨10, "A"⟩, 0⟩

def wdB : SelectionDescription := ⟨⟨11, "B"⟩, ⟨11, "B"⟩, 1⟩

def wcdAB : ContestDescription := ⟨⟨12, "c"⟩, 0, [wdA, wdB], 1, 1⟩

def wpk : Nat := 32

def wselA : PlaintextBallotSelection := ⟨⟨10, "A"⟩, "True", false⟩

def wconA : PlaintextBallotContest := ⟨⟨12, "c"⟩, [wselA]⟩

def wselBad : PlaintextBallotSelection := ⟨⟨10, "A"⟩, "banana", false⟩

def wconBad : PlaintextBallotContest := ⟨⟨12, "c"⟩, [wselBad]⟩

def wselB : PlaintextBallotSelection := ⟨⟨11, "B"⟩, "True", false⟩

def wcdA1 : ContestDescription := ⟨⟨12, "c"⟩, 0, [wdA], 1, 1⟩

def wstyleId : PyStr := ⟨20, "style-1"⟩

def wmeta1 : Election := ⟨[(wstyleId, [wcdA1])]⟩

def wctx : CyphertextElection := ⟨wpk, 5⟩

def wconTooMany : PlaintextBallotContest := ⟨⟨12, "c"⟩, [wselA, wselB]⟩

def wbalBad : PlaintextBallot := ⟨⟨30, "ballot-1"⟩, wstyleId, [wconTooMany]⟩

def wbalEmpty : PlaintextBallot := ⟨⟨30, "ballot-1"⟩, wstyleId, []⟩

def wdC : SelectionDescription := ⟨⟨13, "C"⟩, ⟨13, "C"⟩, 0⟩

def wcdC : ContestDescription := ⟨⟨14, "c2"⟩, 1, [wdC], 1, 1⟩

def wmeta2 : Election := ⟨[(wstyleId, [wcdA1, wcdC])]⟩

def wselC : PlaintextBallotSelection := ⟨⟨13, "C"⟩, "True", false⟩

def wconC : PlaintextBallotContest := ⟨⟨14, "c2"⟩, [wselC]⟩

def wbal2 : PlaintextBallot := ⟨⟨30, "ballot-1"⟩, wstyleId, [wconA, wconC]⟩

def wselA7 : PlaintextBallotSelection := ⟨⟨7, "A"⟩, "True", false⟩

def wconA7 : PlaintextBallotContest := ⟨⟨12, "c"⟩, [wselA7]⟩

def wselAF : PlaintextBallotSelection := ⟨⟨10, "A"⟩, "False", false⟩

def wconDup : PlaintextBallotContest := ⟨⟨12, "c"⟩, [wselA, wselAF]⟩

def wcd2 : ContestDescription := ⟨⟨15, "c3"⟩, 0, [wdA, wdB], 2, 2⟩

/-- The contest nonce that `encrypt_contest wconAB-style calls` derive from
seed 3: `Nonces(wcdAB.crypto_hash(), 3)[wcdAB.sequence_order]`. -/
def wNonce : Nat := (Nonces.mk wcdAB.crypto_hash 3).get wcdAB.sequence_order

theorem innerStep_pos (K n : Nat) (d : SelectionDescription) (st : InnerState)
    (s : PlaintextBallotSelection) (h : matchesDesc d s = true) :
    innerStep K n d st s =
      ⟨true, encrypt_selection s d K n false true, st.selection_count + s.to_int⟩ := by
  simp only [matchesDesc] at h
  simp [innerStep, h]

theorem innerStep_neg (K n : Nat) (d : SelectionDescription) (st : InnerState)
    (s : PlaintextBallotSelection) (h : matchesDesc d s = false) :
    innerStep K n d st s = st := by
  simp only [matchesDesc] at h
  simp [innerStep, h]

theorem innerStep_foldl_count (K n : Nat) (d : SelectionDescription)
    (sels : List PlaintextBallotSelection) : ∀ st : InnerState,
    (sels.foldl (innerStep K n d) st).selection_count =
      st.selection_count + matchVotes sels d := by
  induction sels with
  | nil => intro st; simp [matchVotes]
  | cons s rest ih =>
    intro st
    rw [List.foldl_cons]
    by_cases h : matchesDesc d s = true
    · rw [innerStep_pos K n d st s h, ih]
      simp only [matchVotes, List.filter_cons, h, if_pos, List.map_cons, List.sum_cons]
      omega
    · rw [innerStep_neg K n d st s (by simpa using h), ih]
      simp [matchVotes, List.filter_cons, h]

theorem innerStep_foldl_has (K n : Nat) (d : SelectionDescription)
    (sels : List PlaintextBallotSelection) : ∀ st : InnerState,
    (sels.foldl (innerStep K n d) st).has_selection =
      (st.has_selection || sels.any (matchesDesc d)) := by
  induction sels with
  | nil => intro st; simp
  | cons s rest ih =>
    intro st
    rw [List.foldl_cons]
    by_cases h : matchesDesc d s = true
    · rw [innerStep_pos K n d st s h, ih]
      simp [h]
    · rw [innerStep_neg K n d st s (by simpa using h), ih]
      simp [h]

theorem innerStep_foldl_enc (K n : Nat) (d : SelectionDescription)
    (sels : List PlaintextBallotSelection) :
    ∀ (st : InnerState) (acc : Option PlaintextBallotSelection),
    st.encrypted_selection =
      (match acc with
        | some s => encrypt_selection s d K n false true
        | none => none) →
    (sels.foldl (innerStep K n d) st).encrypted_selection =
      (match sels.foldl (lastMatchStep d) acc with
        | some s => encrypt_selection s d K n false true
        | none => none) := by
  induction sels with
  | nil => intro st acc h; simpa using h
  | cons s rest ih =>
    intro st acc h
    rw [List.foldl_cons, List.foldl_cons]
    by_cases hm : matchesDesc d s = true
    · rw [innerStep_pos K n d st s hm,
        show lastMatchStep d acc s = some s from by simp [lastMatchStep, hm]]
      exact ih _ (some s) rfl
    · rw [innerStep_neg K n d st s (by simpa using hm),
        show lastMatchStep d acc s = acc from by
          simp only [lastMatchStep]
          simp [hm]]
      exact ih st acc h

theorem lastMatch_foldl_isSome (d : SelectionDescription)
    (sels : List PlaintextBallotSelection) :
    ∀ acc : Option PlaintextBallotSelection,
    (sels.foldl (lastMatchStep d) acc).isSome =
      (acc.isSome || sels.any (matchesDesc d)) := by
  induction sels with
  | nil => intro acc; simp
  | cons s rest ih =>
    intro acc
    rw [List.foldl_cons]
    by_cases h : matchesDesc d s = true
    · rw [show lastMatchStep d acc s = some s from by simp [lastMatchStep, h], ih]
      simp [h]
    · rw [show lastMatchStep d acc s = acc from by
        simp only [lastMatchStep]
        simp [h], ih]
      simp [h]

theorem innerLoop_count (K n : Nat) (d : SelectionDescription)
    (sels : List PlaintextBallotSelection) (c0 : Nat) :
    (innerLoop K n d sels c0).selection_count = c0 + matchVotes sels d :=
  innerStep_foldl_count K n d sels _

theorem innerLoop_has (K n : Nat) (d : SelectionDescription)
    (sels : List PlaintextBallotSelection) (c0 : Nat) :
    (innerLoop K n d sels c0).has_selection = sels.any (matchesDesc d) := by
  simpa using innerStep_foldl_has K n d sels ⟨false, none, c0⟩

theorem innerLoop_enc (K n : Nat) (d : SelectionDescription)
    (sels : List PlaintextBallotSelection) (c0 : Nat) :
    (innerLoop K n d sels c0).encrypted_selection =
      (match lastMatch sels d with
        | some s => encrypt_selection s d K n false true
        | none => none) :=
  innerStep_foldl_enc K n d sels ⟨false, none, c0⟩ none rfl

/-- One outer-loop iteration appends exactly the encryption of the slot
selection (last matching voter selection, or explicit false), adds the
matched plaintext values to the running count, and updates the running
highest sequence order. -/
theorem outerStep_eq (K n : Nat) (sels : List PlaintextBallotSelection)
    (st : ContestLoopState) (d : SelectionDescription) :
    outerStep K n sels st d =
      ⟨st.encrypted_selections ++ [encrypt_selection (slotSelection sels d) d K n false true],
        st.selection_count + matchVotes sels d,
        if d.sequence_order > st.highest_sequence_order then d.sequence_order
        else st.highest_sequence_order⟩ := by
  simp only [outerStep, innerLoop_has, innerLoop_enc, innerLoop_count]
  by_cases hany : sels.any (matchesDesc d) = true
  · have hsome : (lastMatch sels d).isSome = true := by
      simpa [lastMatch, hany] using lastMatch_foldl_isSome d sels none
    rcases Option.isSome_iff_exists.mp hsome with ⟨s, hs⟩
    simp [hany, slotSelection, hs]
  · have hnone : lastMatch sels d = none := by
      have h2 := lastMatch_foldl_isSome d sels (none : Option PlaintextBallotSelection)
      rw [Bool.not_eq_true] at hany
      simp only [lastMatch]
      rw [← Option.not_isSome_iff_eq_none]
      simp [h2, hany]
    simp only [Bool.not_eq_true] at hany
    simp [hany, slotSelection, hnone]

theorem outer_foldl (K n : Nat) (sels : List PlaintextBallotSelection)
    (ds : List SelectionDescription) : ∀ st : ContestLoopState,
    ds.foldl (outerStep K n sels) st =
      ⟨st.encrypted_selections ++
          ds.map (fun d => encrypt_selection (slotSelection sels d) d K n false true),
        st.selection_count + (ds.map (matchVotes sels)).sum,
        highestSeqFrom st.highest_sequence_order ds⟩ := by
  induction ds with
  | nil => intro st; simp [highestSeqFrom]
  | cons d rest ih =>
    intro st
    rw [List.foldl_cons, outerStep_eq, ih]
    simp [highestSeqFrom, Nat.add_assoc]

theorem placeholder_coupled (cd : ContestDescription) (K n h : Nat)
    (l : List Nat) :
    ∀ (stE : PlaceholderState)
      (stP : List (PlaintextBallotSelection × SelectionDescription) × Nat),
    stE.encrypted_selections =
      stP.1.map (fun p => encrypt_selection p.1 p.2 K n false true) →
    stE.selection_count = stP.2 →
    (l.foldl (placeholderStep cd K n h) stE).encrypted_selections =
        ((l.foldl (planPlaceholderStep cd h) stP).1).map
          (fun p => encrypt_selection p.1 p.2 K n false true) ∧
      (l.foldl (placeholderStep cd K n h) stE).selection_count =
        (l.foldl (planPlaceholderStep cd h) stP).2 := by
  induction l with
  | nil => intro stE stP h1 h2; exact ⟨h1, h2⟩
  | cons i rest ih =>
    intro stE stP h1 h2
    rw [List.foldl_cons, List.foldl_cons]
    apply ih
    · simp [placeholderStep, planPlaceholderStep, h1, h2]
    · simp [placeholderStep, planPlaceholderStep, h2]

/-- The selection list built by `encrypt_contest` is the map of
`encrypt_selection` over the contest's encryption plan. -/
theorem contestEncryptions_eq_plan (sels : List PlaintextBallotSelection)
    (cd : ContestDescription) (K n : Nat) :
    contestEncryptions sels cd K n =
      (contestPlan sels cd).map (fun p => encrypt_selection p.1 p.2 K n false true) := by
  simp only [contestEncryptions, outer_foldl, contestPlan, highestSeq]
  exact (placeholder_coupled cd K n (highestSeqFrom 0 cd.ballot_selections)
    (List.range cd.number_elected) _ _ (by simp [List.map_map]) (by simp)).1

theorem to_int_cases (s : PlaintextBallotSelection) :
    s.to_int = 0 ∨ s.to_int = 1 := by
  rcases hp : parseBool s.plaintext with _ | b
  · left; simp [PlaintextBallotSelection.to_int, hp]
  · cases b
    · left; simp [PlaintextBallotSelection.to_int, hp]
    · right; simp [PlaintextBallotSelection.to_int, hp]

theorem selection_from_to_int (d : SelectionDescription) (p a : Bool) :
    (selection_from d p a).to_int = if a then 1 else 0 := by
  cases a <;> rfl

theorem planTrues_append (a b : List (PlaintextBallotSelection × SelectionDescription)) :
    planTrues (a ++ b) = planTrues a + planTrues b := by
  simp [planTrues]

theorem planTrueCount_eq_planTrues
    (l : List (PlaintextBallotSelection × SelectionDescription)) :
    planTrueCount l = planTrues l := by
  induction l with
  | nil => simp [planTrueCount, planTrues]
  | cons p rest ih =>
    rcases to_int_cases p.1 with h | h
    · simp [planTrueCount, planTrues, List.countP_cons, h] at *
      exact ih
    · simp [planTrueCount, planTrues, List.countP_cons, h] at *
      omega

theorem planPh_count (cd : ContestDescription) (h : Nat) :
    ∀ (k : Nat) (l0 : List (PlaintextBallotSelection × SelectionDescription))
      (c0 : Nat), c0 ≤ cd.number_elected →
    ((List.range k).foldl (planPlaceholderStep cd h) (l0, c0)).2 =
      min (c0 + k) cd.number_elected := by
  intro k
  induction k with
  | zero => intro l0 c0 hc; simp; omega
  | succ k ih =>
    intro l0 c0 hc
    rw [List.range_succ, List.foldl_append, List.foldl_cons, List.foldl_nil]
    simp only [planPlaceholderStep]
    rw [ih l0 c0 hc]
    split_ifs with hlt <;> omega

theorem planPh_trues (cd : ContestDescription) (h : Nat) :
    ∀ (k : Nat) (l0 : List (PlaintextBallotSelection × SelectionDescription))
      (c0 : Nat), c0 ≤ cd.number_elected →
    planTrues ((List.range k).foldl (planPlaceholderStep cd h) (l0, c0)).1 =
      planTrues l0 + (min (c0 + k) cd.number_elected - c0) := by
  intro k
  induction k with
  | zero =>
    intro l0 c0 hc
    simp only [List.range_zero, List.foldl_nil]
    omega
  | succ k ih =>
    intro l0 c0 hc
    rw [List.range_succ, List.foldl_append, List.foldl_cons, List.foldl_nil]
    simp only [planPlaceholderStep]
    rw [planTrues_append, ih l0 c0 hc, planPh_count cd h k l0 c0 hc]
    simp only [planTrues, List.map_cons, List.map_nil, List.sum_cons, List.sum_nil,
      selection_from_to_int, decide_eq_true_eq]
    split_ifs with hlt <;> omega

theorem planPh_sndmap (cd : ContestDescription) (h : Nat) :
    ∀ (k : Nat) (l0 : List (PlaintextBallotSelection × SelectionDescription))
      (c0 : Nat),
    (((List.range k).foldl (planPlaceholderStep cd h) (l0, c0)).1).map Prod.snd =
      l0.map Prod.snd ++
        (List.range k).map
          (fun i => placeholder_selection_description_from cd (h + i)) := by
  intro k
  induction k with
  | zero => intro l0 c0; simp
  | succ k ih =>
    intro l0 c0
    rw [List.range_succ, List.foldl_append, List.foldl_cons, List.foldl_nil]
    simp only [planPlaceholderStep]
    rw [List.map_append, ih l0 c0, List.map_append]
    simp [List.append_assoc]

theorem planPh_length (cd : ContestDescription) (h : Nat) :
    ∀ (k : Nat) (l0 : List (PlaintextBallotSelection × SelectionDescription))
      (c0 : Nat),
    (((List.range k).foldl (planPlaceholderStep cd h) (l0, c0)).1).length =
      l0.length + k := by
  intro k
  induction k with
  | zero => intro l0 c0; simp
  | succ k ih =>
    intro l0 c0
    rw [List.range_succ, List.foldl_append, List.foldl_cons, List.foldl_nil]
    simp only [planPlaceholderStep]
    rw [List.length_append, ih l0 c0]
    simp only [List.length_cons, List.length_nil]
    omega

theorem contestPlan_length (sels : List PlaintextBallotSelection)
    (cd : ContestDescription) :
    (contestPlan sels cd).length =
      cd.ballot_selections.length + cd.number_elected := by
  simp only [contestPlan]
  rw [planPh_length]
  simp

/-- Projection of a successful `encrypt_contest` call: the returned contest is
exactly the record the source builds, whatever the verification outcome
was. -/
theorem encrypt_contest_some (c : PlaintextBallotContest)
    (cd : ContestDescription) (K s : Nat) (v : Bool)
    (ec : CyphertextBallotContest)
    (h : encrypt_contest c cd K s v = some ec) :
    ec = { object_id := c.object_id
           description_hash := cd.crypto_hash
           ballot_selections := contestEncryptions c.ballot_selections cd K
             ((Nonces.mk cd.crypto_hash s).get cd.sequence_order)
           nonce := (Nonces.mk cd.crypto_hash s).get cd.sequence_order
           proof := contestProof
             (contestEncryptions c.ballot_selections cd K
               ((Nonces.mk cd.crypto_hash s).get cd.sequence_order))
             cd.number_elected K ((Nonces.mk cd.crypto_hash s).get 0) } := by
  simp only [encrypt_contest] at h
  split at h
  · split at h
    · split at h
      · exact (Option.some_inj.mp h).symm
      · exact Option.noConfusion h
    · exact (Option.some_inj.mp h).symm
  · exact Option.noConfusion h

/-- Projection of a successful `encrypt_selection` call: the returned
selection is exactly the record the source builds. -/
theorem encrypt_selection_some (sel : PlaintextBallotSelection)
    (d : SelectionDescription) (K s : Nat) (ph v : Bool)
    (es : CyphertextBallotSelection)
    (h : encrypt_selection sel d K s ph v = some es) :
    es = { object_id := sel.object_id
           description_hash := d.crypto_hash
           message := elgamal_encrypt sel.to_int
             ((Nonces.mk d.crypto_hash s).get d.sequence_order) K
           is_placeholder := ph
           nonce := (Nonces.mk d.crypto_hash s).get d.sequence_order
           proof := (elgamal_encrypt sel.to_int
               ((Nonces.mk d.crypto_hash s).get d.sequence_order) K).bind
             (fun ct => make_disjunctive_chaum_pedersen ct
               ((Nonces.mk d.crypto_hash s).get d.sequence_order) K
               ((Nonces.mk d.crypto_hash s).get 0) sel.to_int) } := by
  simp only [encrypt_selection] at h
  split at h
  · split at h
    · split at h
      · exact (Option.some_inj.mp h).symm
      · exact Option.noConfusion h
    · exact (Option.some_inj.mp h).symm
  · exact Option.noConfusion h

theorem matchesDesc_addr (d : SelectionDescription) (s : PlaintextBallotSelection) :
    matchesDesc d s = true ↔ s.object_id.addr = d.object_id.addr := by
  simp [matchesDesc, pyIs]

theorem filter_matches_len_le_one (d : SelectionDescription)
    (sels : List PlaintextBallotSelection)
    (hdup : (sels.map (fun s => s.object_id.addr)).Nodup) :
    (sels.filter (matchesDesc d)).length ≤ 1 := by
  induction sels with
  | nil => simp
  | cons s rest ih =>
    rw [List.map_cons, List.nodup_cons] at hdup
    rw [List.filter_cons]
    by_cases h : matchesDesc d s = true
    · rw [if_pos h]
      have hnil : rest.filter (matchesDesc d) = [] := by
        rw [List.filter_eq_nil_iff]
        intro x hx hmx
        exact hdup.1 (List.mem_map.mpr ⟨x, hx,
          ((matchesDesc_addr d x).mp hmx).trans ((matchesDesc_addr d s).mp h).symm⟩)
      simp [hnil]
    · rw [if_neg (by simpa using h)]
      exact ih hdup.2

theorem lastMatch_foldl_eq (d : SelectionDescription)
    (sels : List PlaintextBallotSelection) :
    ∀ acc : Option PlaintextBallotSelection,
    sels.foldl (lastMatchStep d) acc =
      ((sels.filter (matchesDesc d)).getLast?).or acc := by
  induction sels using List.reverseRecOn with
  | nil => intro acc; simp
  | append_singleton l s ih =>
    intro acc
    rw [List.foldl_append, List.foldl_cons, List.foldl_nil, List.filter_append]
    by_cases h : matchesDesc d s = true
    · rw [show lastMatchStep d (l.foldl (lastMatchStep d) acc) s = some s from by
        simp [lastMatchStep, h]]
      rw [show List.filter (matchesDesc d) [s] = [s] from by simp [h]]
      rw [List.getLast?_concat]
      simp
    · rw [show lastMatchStep d (l.foldl (lastMatchStep d) acc) s =
          l.foldl (lastMatchStep d) acc from by
        simp only [lastMatchStep]
        simp [h]]
      rw [show List.filter (matchesDesc d) [s] = [] from by simp [h]]
      rw [List.append_nil]
      exact ih acc

/-- With pairwise-distinct voter selection identities, the plaintext value of
the slot selection equals the whole matched-votes contribution of the
description (both are 0 when nothing matches). -/
theorem slotSelection_to_int (d : SelectionDescription)
    (sels : List PlaintextBallotSelection)
    (hdup : (sels.map (fun s => s.object_id.addr)).Nodup) :
    (slotSelection sels d).to_int = matchVotes sels d := by
  have hlen := filter_matches_len_le_one d sels hdup
  have hlm : lastMatch sels d = ((sels.filter (matchesDesc d)).getLast?).or none :=
    lastMatch_foldl_eq d sels none
  cases hf : sels.filter (matchesDesc d) with
  | nil =>
    rw [slotSelection, hlm, hf]
    simp only [List.getLast?_nil, Option.or_none, Option.getD_none]
    rw [matchVotes, hf]
    simp [selection_from_to_int]
  | cons s t =>
    have ht : t = [] := by
      cases t with
      | nil => rfl
      | cons a b => rw [hf] at hlen; simp at hlen
    subst ht
    rw [slotSelection, hlm, hf, matchVotes, hf]
    simp

theorem sum_map_add {α : Type} (l : List α) (f g : α → Nat) :
    (l.map (fun x => f x + g x)).sum = (l.map f).sum + (l.map g).sum := by
  induction l with
  | nil => simp
  | cons x t ih =>
    simp only [List.map_cons, List.sum_cons, ih]
    omega

theorem matchVotes_eq_sum (d : SelectionDescription)
    (sels : List PlaintextBallotSelection) :
    matchVotes sels d =
      (sels.map (fun s => (if matchesDesc d s then 1 else 0) * s.to_int)).sum := by
  induction sels with
  | nil => simp [matchVotes]
  | cons s t ih =>
    rw [matchVotes, List.filter_cons]
    by_cases h : matchesDesc d s = true
    · rw [if_pos h, List.map_cons, List.sum_cons, List.map_cons, List.sum_cons]
      rw [← matchVotes, ih, h]
      simp
    · rw [if_neg (by simpa using h), List.map_cons, List.sum_cons]
      rw [← matchVotes, ih]
      simp [h]

theorem countP_matches_le_one (ds : List SelectionDescription)
    (s : PlaintextBallotSelection)
    (hddup : (ds.map (fun d => d.object_id.addr)).Nodup) :
    ds.countP (fun d => matchesDesc d s) ≤ 1 := by
  induction ds with
  | nil => simp
  | cons d t ih =>
    rw [List.map_cons, List.nodup_cons] at hddup
    rw [List.countP_cons]
    by_cases h : matchesDesc d s = true
    · have hzero : t.countP (fun d => matchesDesc d s) = 0 := by
        rw [List.countP_eq_zero]
        intro x hx hmx
        exact hddup.1 (List.mem_map.mpr ⟨x, hx,
          ((matchesDesc_addr x s).mp hmx).symm.trans ((matchesDesc_addr d s).mp h)⟩)
      simp [hzero, h]
    · have := ih hddup.2
      simp only [h]
      simpa using this

theorem sum_matchVotes_swap (sels : List PlaintextBallotSelection) :
    ∀ ds : List SelectionDescription,
    (ds.map (matchVotes sels)).sum =
      (sels.map (fun s =>
        (ds.countP (fun d => matchesDesc d s)) * s.to_int)).sum := by
  intro ds
  induction ds with
  | nil =>
    symm
    apply List.sum_eq_zero
    intro x hx
    rcases List.mem_map.mp hx with ⟨s, _, rfl⟩
    simp
  | cons d t ih =>
    rw [List.map_cons, List.sum_cons, ih, matchVotes_eq_sum, ← sum_map_add]
    apply congrArg List.sum
    apply List.map_congr_left
    intro s _
    rw [List.countP_cons]
    by_cases h : matchesDesc d s = true
    · simp [h, Nat.add_mul, Nat.add_comm]
    · simp [h]

/-- With pairwise-distinct description identities, the total matched-votes
contribution accumulated over all descriptions is at most the total number of
true selections the voter supplied. -/
theorem sum_matchVotes_le (sels : List PlaintextBallotSelection)
    (ds : List SelectionDescription)
    (hddup : (ds.map (fun d => d.object_id.addr)).Nodup) :
    (ds.map (matchVotes sels)).sum ≤ (sels.map (fun s => s.to_int)).sum := by
  rw [sum_matchVotes_swap]
  apply List.sum_le_sum
  intro s hs
  have hle := countP_matches_le_one ds s hddup
  calc (ds.countP (fun d => matchesDesc d s)) * s.to_int
      ≤ 1 * s.to_int := Nat.mul_le_mul_right _ hle
    _ = s.to_int := Nat.one_mul _

theorem digitsRev_lt_ten : ∀ fuel n x, x ∈ digitsRev fuel n → x < 10 := by
  intro fuel
  induction fuel with
  | zero => intro n x h; simp [digitsRev] at h
  | succ f ih =>
    intro n x h
    simp only [digitsRev] at h
    by_cases hn : n = 0
    · rw [if_pos hn] at h; simp at h
    · rw [if_neg hn] at h
      rcases List.mem_cons.mp h with h | h
      · subst h; exact Nat.mod_lt _ (by omega)
      · exact ih _ _ h

theorem digitsRev_roundtrip : ∀ fuel n, n ≤ fuel → undigits (digitsRev fuel n) = n := by
  intro fuel
  induction fuel with
  | zero =>
    intro n h
    have : n = 0 := by omega
    subst this
    simp [digitsRev, undigits]
  | succ f ih =>
    intro n h
    simp only [digitsRev]
    by_cases hn : n = 0
    · rw [if_pos hn]; simp [undigits, hn]
    · rw [if_neg hn]
      simp only [undigits]
      rw [ih (n / 10) (by omega)]
      omega

theorem digitChar_inj (d1 d2 : Nat) (h1 : d1 < 10) (h2 : d2 < 10)
    (h : digitChar d1 = digitChar d2) : d1 = d2 := by
  interval_cases d1 <;> interval_cases d2 <;> revert h <;> decide

theorem map_digitChar_inj : ∀ l1 l2 : List Nat,
    (∀ x ∈ l1, x < 10) → (∀ x ∈ l2, x < 10) →
    l1.map digitChar = l2.map digitChar → l1 = l2 := by
  intro l1
  induction l1 with
  | nil =>
    intro l2 _ _ h
    cases l2 with
    | nil => rfl
    | cons b u => simp at h
  | cons a t ih =>
    intro l2 h1 h2 h
    cases l2 with
    | nil => simp at h
    | cons b u =>
      simp only [List.map_cons, List.cons.injEq] at h
      rw [digitChar_inj a b (h1 a (by simp)) (h2 b (by simp)) h.1,
        ih u (fun x hx => h1 x (by simp [hx])) (fun x hx => h2 x (by simp [hx])) h.2]

theorem natToString_ne_zero_str (n : Nat) (hn : n ≠ 0) : natToString n ≠ "0" := by
  intro hcontra
  rw [natToString, if_neg hn] at hcontra
  have hdata : ((digitsRev n n).map digitChar).reverse = ['0'] :=
    congrArg String.data hcontra
  have hmap : (digitsRev n n).map digitChar = ['0'] := by
    have h2 := congrArg List.reverse hdata
    simpa using h2
  cases hd : digitsRev n n with
  | nil => rw [hd] at hmap; simp at hmap
  | cons a t =>
    rw [hd] at hmap
    simp only [List.map_cons, List.cons.injEq] at hmap
    have ha : a < 10 := digitsRev_lt_ten n n a (by rw [hd]; simp)
    have ha0 : a = 0 := digitChar_inj a 0 ha (by omega) (by rw [hmap.1]; rfl)
    have ht : t = [] := by
      have := hmap.2
      cases t with
      | nil => rfl
      | cons x y => simp at this
    have hrt := digitsRev_roundtrip n n (Nat.le_refl n)
    rw [hd, ha0, ht] at hrt
    simp [undigits] at hrt
    exact hn hrt.symm

theorem natToString_inj (m n : Nat) (h : natToString m = natToString n) : m = n := by
  by_cases hm : m = 0 <;> by_cases hn : n = 0
  · omega
  · subst hm
    exact absurd h.symm (natToString_ne_zero_str n hn)
  · subst hn
    exact absurd h (natToString_ne_zero_str m hm)
  · rw [natToString, if_neg hm, natToString, if_neg hn] at h
    have hdata : ((digitsRev m m).map digitChar).reverse =
        ((digitsRev n n).map digitChar).reverse := congrArg String.data h
    have hmap := List.reverse_inj.mp hdata
    have hdig := map_digitChar_inj _ _ (fun x hx => digitsRev_lt_ten m m x hx)
      (fun x hx => digitsRev_lt_ten n n x hx) hmap
    have hm' := digitsRev_roundtrip m m (Nat.le_refl m)
    have hn' := digitsRev_roundtrip n n (Nat.le_refl n)
    rw [hdig] at hm'
    omega

/-- Distinct sequence orders give distinct synthesized placeholder object-id
strings `"{object_id}-{sequence_order}"`. -/
theorem placeholder_val_inj (pre : String) (s1 s2 : Nat)
    (h : pre ++ "-" ++ natToString s1 = pre ++ "-" ++ natToString s2) : s1 = s2 := by
  apply natToString_inj
  apply String.ext
  have hdata := congrArg String.data h
  rw [String.data_append, String.data_append] at hdata
  exact List.append_cancel_left hdata

theorem highestSeqFrom_ge (ds : List SelectionDescription) :
    ∀ h : Nat, h ≤ highestSeqFrom h ds ∧
      ∀ d ∈ ds, d.sequence_order ≤ highestSeqFrom h ds := by
  induction ds with
  | nil => intro h; simp [highestSeqFrom]
  | cons d t ih =>
    intro h
    have step : highestSeqFrom h (d :: t) =
        highestSeqFrom (if d.sequence_order > h then d.sequence_order else h) t := rfl
    rcases ih (if d.sequence_order > h then d.sequence_order else h) with ⟨h1, h2⟩
    constructor
    · rw [step]
      by_cases hgt : d.sequence_order > h
      · rw [if_pos hgt] at h1 ⊢
        omega
      · rw [if_neg hgt] at h1 ⊢
        exact h1
    · intro d' hd'
      rw [step]
      rcases List.mem_cons.mp hd' with rfl | hd'
      · by_cases hgt : d'.sequence_order > h
        · rw [if_pos hgt] at h1 ⊢
          exact h1
        · rw [if_neg hgt] at h1 ⊢
          omega
      · exact h2 d' hd'

/-! The claims. -/

/-- Claim C1 (refuted; the claim describes the intended failure propagation,
which the code does not implement): when `encrypt_selection` fails for one
selection, `encrypt_contest` appends the absent child and — with verification
skipped — still returns a contest containing it, and likewise
`encrypt_ballot` returns a ballot embedding an absent contest.  Concretely:
the voter selection with plaintext `"banana"` passes contest-level validation
but fails selection-level validation, so its `encrypt_selection` call returns
`none`, yet `encrypt_contest` returns a contest whose first selection slot is
absent; and a contest failing contest-level validation makes its
`encrypt_contest` call return `none`, yet `encrypt_ballot` returns a ballot
whose only contest entry is absent. -/
theorem C1_failure_not_propagated :
    encrypt_selection wselBad wdA wpk wNonce false true = none ∧
    (encrypt_contest wconBad wcdAB wpk 3 false).map
        (fun ec => ec.ballot_selections.map Option.isSome) =
      some [false, true, true] ∧
    encrypt_contest wconTooMany wcdA1 wpk
        (hash_elems [.nat 5, .str "ballot-1", .nat 7]) true = none ∧
    (encrypt_ballot wbalBad wmeta1 wctx 7 false).map
        (fun eb => eb.contests.map Option.isSome) =
      some [false] := by
  refine ⟨by decide, by decide, by decide, by decide⟩

/-- Claim C2 (refuted; the claim describes the intended one-contest-per-
description behavior): because the source appends inside the inner
`for contest in ballot.contests` loop, `encrypt_ballot` emits one entry per
(description, ballot-contest) pair.  A ballot with no contests yields no
encrypted contests at all (instead of one synthesized contest for the style's
single description), and a two-contest ballot over a two-contest style yields
four encrypted contests (instead of two). -/
theorem C2_one_contest_per_description_violated :
    (encrypt_ballot wbalEmpty wmeta1 wctx 7 false).map
        (fun eb => eb.contests.length) = some 0 ∧
    (wmeta1.get_contests_for wbalEmpty.ballot_style).length = 1 ∧
    (encrypt_ballot wbal2 wmeta2 wctx 7 false).map
        (fun eb => (eb.contests.length,
          eb.contests.map (Option.map (fun c => c.object_id.val)))) =
      some (4, [some "c", some "c", some "c2", some "c2"]) ∧
    (wmeta2.get_contests_for wbal2.ballot_style).length = 2 := by
  refine ⟨by decide, by decide, by decide, by decide⟩

/-- Claim C3: for a contest whose voter input has pairwise-distinct selection
identities, matched against pairwise-distinct description identities, and at
most `number_elected` true selections, the contest encrypted by
`encrypt_contest` carries exactly `number_elected` selections whose plaintext
representation is true, counting real and placeholder selections: its
selection list is the image under `encrypt_selection` of the contest's
encryption plan, and the plan has true-count `number_elected`. -/
theorem C3_true_count_equals_number_elected
    (contest : PlaintextBallotContest) (cd : ContestDescription)
    (K seed : Nat) (verify : Bool) (ec : CyphertextBallotContest)
    (hdup : (contest.ballot_selections.map (fun s => s.object_id.addr)).Nodup)
    (hddup : (cd.ballot_selections.map (fun d => d.object_id.addr)).Nodup)
    (hvotes : contest.totalVotes ≤ cd.number_elected)
    (henc : encrypt_contest contest cd K seed verify = some ec) :
    planTrueCount (contestPlan contest.ballot_selections cd) = cd.number_elected ∧
    ec.ballot_selections =
      (contestPlan contest.ballot_selections cd).map
        (fun p => encrypt_selection p.1 p.2 K
          ((Nonces.mk cd.crypto_hash seed).get cd.sequence_order) false true) := by
  have hc0le : (cd.ballot_selections.map (matchVotes contest.ballot_selections)).sum ≤
      cd.number_elected :=
    le_trans (sum_matchVotes_le _ _ hddup)
      (by simpa [PlaintextBallotContest.totalVotes] using hvotes)
  constructor
  · rw [planTrueCount_eq_planTrues]
    simp only [contestPlan]
    rw [planPh_trues _ _ _ _ _ hc0le]
    have hreal : planTrues (cd.ballot_selections.map
        (fun d => (slotSelection contest.ballot_selections d, d))) =
        (cd.ballot_selections.map (matchVotes contest.ballot_selections)).sum := by
      simp only [planTrues, List.map_map]
      apply congrArg List.sum
      apply List.map_congr_left
      intro d _
      exact slotSelection_to_int d _ hdup
    rw [hreal]
    omega
  · rw [encrypt_contest_some _ _ _ _ _ _ henc]
    exact contestEncryptions_eq_plan _ _ _ _

/-- Witness for C3 at the concrete one-seat A/B contest with the voter
selecting only A. -/
theorem C3_true_count_equals_number_elected_witness :
    planTrueCount (contestPlan wconA.ballot_selections wcdAB) =
      wcdAB.number_elected ∧
    ((encrypt_contest wconA wcdAB wpk 3 false).get (by decide)).ballot_selections =
      (contestPlan wconA.ballot_selections wcdAB).map
        (fun p => encrypt_selection p.1 p.2 wpk
          ((Nonces.mk wcdAB.crypto_hash 3).get wcdAB.sequence_order) false true) :=
  C3_true_count_equals_number_elected wconA wcdAB wpk 3 false _
    (by decide) (by decide) (by decide) (Option.some_get (by decide)).symm

/-- Claim C4 (refuted; the claim describes the intended value-equality
matching, while the code matches with Python `is`): a voter selection whose
object id is value-equal but not reference-identical to the description's is
not matched — the inner loop reports no selection, the encryption plan uses
the synthesized explicit-false selection, and the encrypted contest encrypts
0 for that description even though the voter voted 1 — whereas the same vote
with an identical id object is matched and encrypted as 1. -/
theorem C4_matching_is_identity_not_value_equality :
    wselA7.object_id.val = wdA.object_id.val ∧
    pyIs wselA7.object_id wdA.object_id = false ∧
    wselA7.to_int = 1 ∧
    (innerLoop wpk wNonce wdA [wselA7] 0).has_selection = false ∧
    (innerLoop wpk wNonce wdA [wselA7] 0).selection_count = 0 ∧
    (contestPlan wconA7.ballot_selections wcdAB).head? =
      some (selection_from wdA false false, wdA) ∧
    (encrypt_contest wconA7 wcdAB wpk 3 false).map
        (fun ec => ec.ballot_selections.map (Option.map
          (fun s => s.message == elgamal_encrypt 0 s.nonce wpk))) =
      some [some true, some true, some false] ∧
    (innerLoop wpk wNonce wdA [wselA] 0).has_selection = true ∧
    (innerLoop wpk wNonce wdA [wselA] 0).selection_count = 1 := by
  refine ⟨by decide, by decide, by decide, by decide, by decide, by decide,
    by decide, by decide, by decide⟩

/-- Claim C5: every plaintext selection built by `selection_from` (hence
every synthesized explicit-false selection and every placeholder selection,
for any description and flags) has a vote whose boolean-as-integer value is
0 or 1. -/
theorem C5_selection_from_vote_is_boolean (d : SelectionDescription)
    (is_placeholder is_affirmative : Bool) :
    (selection_from d is_placeholder is_affirmative).to_int = 0 ∨
      (selection_from d is_placeholder is_affirmative).to_int = 1 := by
  rw [selection_from_to_int]
  cases is_affirmative
  · left; rfl
  · right; rfl

/-- Claim C6: every contest returned by `encrypt_contest` has exactly one
selection slot per selection description plus exactly `number_elected`
placeholder slots; in particular, the two-candidate one-seat contest with the
voter selecting only A encrypts to exactly 3 selections (A, B, and one
placeholder) whose plan true-count is 1. -/
theorem C6_selection_list_length :
    (∀ (contest : PlaintextBallotContest) (cd : ContestDescription)
      (K seed : Nat) (verify : Bool) (ec : CyphertextBallotContest),
      encrypt_contest contest cd K seed verify = some ec →
      ec.ballot_selections.length =
        cd.ballot_selections.length + cd.number_elected) ∧
    (encrypt_contest wconA wcdAB wpk 3 false).map
        (fun ec => (ec.ballot_selections.length,
          ec.ballot_selections.map (Option.map (fun s => s.object_id.val)))) =
      some (3, [some "A", some "B", some "c-1"]) ∧
    planTrueCount (contestPlan wconA.ballot_selections wcdAB) = 1 := by
  refine ⟨?_, by decide, by decide⟩
  intro contest cd K seed verify ec h
  rw [encrypt_contest_some _ _ _ _ _ _ h]
  rw [contestEncryptions_eq_plan, List.length_map, contestPlan_length]

/-- Witness for C6 at the concrete one-seat A/B contest. -/
theorem C6_selection_list_length_witness :
    ((encrypt_contest wconA wcdAB wpk 3 false).get (by decide)).ballot_selections.length =
      wcdAB.ballot_selections.length + wcdAB.number_elected :=
  C6_selection_list_length.1 wconA wcdAB wpk 3 false _
    (Option.some_get (by decide)).symm

/-- Claim C7: whenever `encrypt_selection` succeeds, the selection nonce it
used is `Nonces(description.crypto_hash(), seed)[description.sequence_order]`,
the stored message is the ElGamal encryption of the selection's 0/1
representation under that nonce, and the stored disjunctive proof was built
with proof randomness drawn from index 0 of the same nonce sequence. -/
theorem C7_selection_nonce_derivation
    (sel : PlaintextBallotSelection) (d : SelectionDescription)
    (K seed : Nat) (is_placeholder verify : Bool)
    (hsome : (encrypt_selection sel d K seed is_placeholder verify).isSome = true) :
    (encrypt_selection sel d K seed is_placeholder verify).map
        (fun es => es.nonce) =
      some ((Nonces.mk d.crypto_hash seed).get d.sequence_order) ∧
    (encrypt_selection sel d K seed is_placeholder verify).map
        (fun es => es.message) =
      some (elgamal_encrypt sel.to_int
        ((Nonces.mk d.crypto_hash seed).get d.sequence_order) K) ∧
    (encrypt_selection sel d K seed is_placeholder verify).map
        (fun es => es.proof) =
      some ((elgamal_encrypt sel.to_int
          ((Nonces.mk d.crypto_hash seed).get d.sequence_order) K).bind
        (fun ct => make_disjunctive_chaum_pedersen ct
          ((Nonces.mk d.crypto_hash seed).get d.sequence_order) K
          ((Nonces.mk d.crypto_hash seed).get 0) sel.to_int)) := by
  rcases Option.isSome_iff_exists.mp hsome with ⟨es, hes⟩
  rw [hes, encrypt_selection_some sel d K seed is_placeholder verify es hes]
  exact ⟨rfl, rfl, rfl⟩

/-- Witness for C7 at the concrete selection A. -/
theorem C7_selection_nonce_derivation_witness :
    (encrypt_selection wselA wdA wpk 3 false false).map
        (fun es => es.nonce) =
      some ((Nonces.mk wdA.crypto_hash 3).get wdA.sequence_order) ∧
    (encrypt_selection wselA wdA wpk 3 false false).map
        (fun es => es.message) =
      some (elgamal_encrypt wselA.to_int
        ((Nonces.mk wdA.crypto_hash 3).get wdA.sequence_order) wpk) ∧
    (encrypt_selection wselA wdA wpk 3 false false).map
        (fun es => es.proof) =
      some ((elgamal_encrypt wselA.to_int
          ((Nonces.mk wdA.crypto_hash 3).get wdA.sequence_order) wpk).bind
        (fun ct => make_disjunctive_chaum_pedersen ct
          ((Nonces.mk wdA.crypto_hash 3).get wdA.sequence_order) wpk
          ((Nonces.mk wdA.crypto_hash 3).get 0) wselA.to_int)) :=
  C7_selection_nonce_derivation wselA wdA wpk 3 false false (by decide)

/-- Claim C8: the `i`-th placeholder selection description synthesized by
`encrypt_contest` has object id `"{contest_object_id}-{sequence_order}"` with
sequence order `highest + i`, where `highest` is the running maximum the code
computes over the real selection descriptions' sequence orders (an upper
bound of them all); distinct placeholder indices give distinct object ids. -/
theorem C8_placeholder_ids (cd : ContestDescription)
    (sels : List PlaintextBallotSelection) (i j : Nat)
    (hi : i < cd.number_elected) (hj : j < cd.number_elected) (hij : i ≠ j) :
    ((contestPlan sels cd).drop cd.ballot_selections.length).map Prod.snd =
      (List.range cd.number_elected).map
        (fun k => placeholder_selection_description_from cd
          (highestSeq cd.ballot_selections + k)) ∧
    (placeholder_selection_description_from cd
        (highestSeq cd.ballot_selections + i)).object_id.val =
      cd.object_id.val ++ "-" ++ natToString (highestSeq cd.ballot_selections + i) ∧
    (placeholder_selection_description_from cd
        (highestSeq cd.ballot_selections + i)).sequence_order =
      highestSeq cd.ballot_selections + i ∧
    (placeholder_selection_description_from cd
        (highestSeq cd.ballot_selections + i)).object_id.val ≠
      (placeholder_selection_description_from cd
        (highestSeq cd.ballot_selections + j)).object_id.val ∧
    (∀ d ∈ cd.ballot_selections,
      d.sequence_order ≤ highestSeq cd.ballot_selections) := by
  refine ⟨?_, rfl, rfl, ?_, ?_⟩
  · rw [List.map_drop]
    simp only [contestPlan]
    rw [planPh_sndmap]
    have hlen : (List.map Prod.snd (cd.ballot_selections.map
        (fun d => (slotSelection sels d, d)))).length =
        cd.ballot_selections.length := by
      simp
    rw [← hlen, List.drop_left]
  · intro hcontra
    apply hij
    have := placeholder_val_inj cd.object_id.val _ _ hcontra
    omega
  · exact (highestSeqFrom_ge cd.ballot_selections 0).2

/-- Witness for C8 at the concrete two-seat contest, indices 0 and 1. -/
theorem C8_placeholder_ids_witness :
    ((contestPlan wconA.ballot_selections wcd2).drop
        wcd2.ballot_selections.length).map Prod.snd =
      (List.range wcd2.number_elected).map
        (fun k => placeholder_selection_description_from wcd2
          (highestSeq wcd2.ballot_selections + k)) ∧
    (placeholder_selection_description_from wcd2
        (highestSeq wcd2.ballot_selections + 0)).object_id.val =
      wcd2.object_id.val ++ "-" ++
        natToString (highestSeq wcd2.ballot_selections + 0) ∧
    (placeholder_selection_description_from wcd2
        (highestSeq wcd2.ballot_selections + 0)).sequence_order =
      highestSeq wcd2.ballot_selections + 0 ∧
    (placeholder_selection_description_from wcd2
        (highestSeq wcd2.ballot_selections + 0)).object_id.val ≠
      (placeholder_selection_description_from wcd2
        (highestSeq wcd2.ballot_selections + 1)).object_id.val ∧
    (∀ d ∈ wcd2.ballot_selections,
      d.sequence_order ≤ highestSeq wcd2.ballot_selections) :=
  C8_placeholder_ids wcd2 wconA.ballot_selections 0 1
    (by decide) (by decide) (by decide)

/-- Claim C9: `encrypt_contest` is deterministic — the embedding takes no
randomness source, so two calls on equal contests, descriptions, keys, seeds
and verification flags return equal results (ciphertexts, nonces and proofs
included); the only nondeterminism of the pipeline is `encrypt_ballot`'s
master-nonce draw, which is an explicit argument here. -/
theorem C9_encrypt_contest_deterministic
    (c1 c2 : PlaintextBallotContest) (cd1 cd2 : ContestDescription)
    (K1 K2 s1 s2 : Nat) (v1 v2 : Bool)
    (hc : c1 = c2) (hcd : cd1 = cd2) (hK : K1 = K2) (hs : s1 = s2)
    (hv : v1 = v2) :
    encrypt_contest c1 cd1 K1 s1 v1 = encrypt_contest c2 cd2 K2 s2 v2 := by
  subst hc; subst hcd; subst hK; subst hs; subst hv; rfl

/-- Witness for C9 at the concrete A/B contest. -/
theorem C9_encrypt_contest_deterministic_witness :
    encrypt_contest wconA wcdAB wpk 3 true =
      encrypt_contest wconA wcdAB wpk 3 true :=
  C9_encrypt_contest_deterministic wconA wconA wcdAB wcdAB wpk wpk 3 3
    true true rfl rfl rfl rfl rfl

/-- Claim C10: in the inner matching loop of `encrypt_contest`, the running
`selection_count` accumulates the plaintext value of every matching
selection, while the appended encryption is that of the last matching
selection only; concretely, with two voter selections both matching
description A (votes 1 then 0), the count gains 1 but every emitted
selection of the encrypted contest encrypts 0 — the accumulated count and
the emitted ciphertexts disagree. -/
theorem C10_duplicate_matches_count_vs_ciphertexts :
    (∀ (K n c0 : Nat) (d : SelectionDescription)
      (sels : List PlaintextBallotSelection),
      (innerLoop K n d sels c0).selection_count =
        c0 + ((sels.filter (matchesDesc d)).map (fun s => s.to_int)).sum ∧
      (innerLoop K n d sels c0).encrypted_selection =
        (match (sels.filter (matchesDesc d)).getLast? with
          | some s => encrypt_selection s d K n false true
          | none => none)) ∧
    (innerLoop wpk wNonce wdA [wselA, wselAF] 0).selection_count = 1 ∧
    (innerLoop wpk wNonce wdA [wselA, wselAF] 0).encrypted_selection =
      encrypt_selection wselAF wdA wpk wNonce false true ∧
    (encrypt_contest wconDup wcdAB wpk 3 false).map
        (fun ec => ec.ballot_selections.map (Option.map
          (fun s => s.message == elgamal_encrypt 1 s.nonce wpk))) =
      some [some false, some false, some false] := by
  refine ⟨?_, by decide, by decide, by decide⟩
  intro K n c0 d sels
  constructor
  · exact innerLoop_count K n d sels c0
  · rw [innerLoop_enc K n d sels c0]
    have h2 : lastMatch sels d = ((sels.filter (matchesDesc d)).getLast?).or none :=
      lastMatch_foldl_eq d sels none
    rw [h2]
    cases (sels.filter (matchesDesc d)).getLast? <;> rfl

end EG

